import Mathlib

/-!
Verification of the Hybrid Medicine Recommendation Engine described in
spec.md of the Clinical Intelligence Platform repository.

The repository ships the Next.js frontend (under src/frontend) and
documentation; the Flask backend that implements the ensemble aggregator,
the incremental learning engine and the learning store is not part of the
shipped sources, so those components are modelled here from the spec's
words (each such definition says so in its doc comment).  The frontend
functions (prescription pad, pharmacy statistics, match-percentage
display) are embedded directly from the TypeScript sources.

Numeric scores and weights are modelled as rationals: the spec's
"within floating-point tolerance" becomes exact equality over ℚ.
JavaScript strings are modelled as lists of characters where the claims
depend on splitting and joining.
-/

/-- Modelled from the spec: `WeightVector: {semantic, knowledge,
collaborative}` — the ensemble blending weights (spec §3).  The backend
learning engine owning this state is not under src/. -/
structure WeightVector where
  semantic : ℚ
  knowledge : ℚ
  collaborative : ℚ
deriving DecidableEq

/-- The sum of the three components of a weight vector. -/
def WeightVector.total (w : WeightVector) : ℚ :=
  w.semantic + w.knowledge + w.collaborative

/-- Modelled from the spec: the invariant on WeightVector — "each ≥0,
invariant: sum == 1 (re-normalized after every update)" (spec §3). -/
def validWeights (w : WeightVector) : Prop :=
  0 ≤ w.semantic ∧ 0 ≤ w.knowledge ∧ 0 ≤ w.collaborative ∧ w.total = 1

/-- Modelled from the spec: the weight vector the engine starts from.
The spec fixes no initial numbers, only the invariant, so the uniform
blend over the three models is used. -/
def initialWeights : WeightVector := ⟨1/3, 1/3, 1/3⟩

/-- Modelled from the spec: "the WeightVector is clipped to ≥0"
(spec §4.4 step 2) — each component is clamped at zero. -/
def clipNonneg (w : WeightVector) : WeightVector :=
  ⟨max w.semantic 0, max w.knowledge 0, max w.collaborative 0⟩

/-- Modelled from the spec: "clipped to ≥0 and renormalized to sum to 1"
(spec §4.4 step 2).  Should the clipped mass vanish entirely — which the
spec's small learning rates never produce from a valid vector — the
uniform initial blend is restored so that renormalization always yields
a vector summing to 1. -/
def renormalize (w : WeightVector) : WeightVector :=
  if (clipNonneg w).total = 0 then initialWeights
  else
    ⟨(clipNonneg w).semantic / (clipNonneg w).total,
     (clipNonneg w).knowledge / (clipNonneg w).total,
     (clipNonneg w).collaborative / (clipNonneg w).total⟩

/-- Modelled from the spec: one feedback update of the weights — "The
nudge magnitude is a small fixed learning rate applied additively, then
the WeightVector is clipped to ≥0 and renormalized to sum to 1"
(spec §4.4 step 2).  `d` is the additive nudge vector. -/
def applyNudge (w d : WeightVector) : WeightVector :=
  renormalize ⟨w.semantic + d.semantic, w.knowledge + d.knowledge,
               w.collaborative + d.collaborative⟩

/-- `Candidate: {id, name, description, tags, stock_level}` (spec §3);
the external catalog's row, mirrored by the `Medicine` interface in
src/frontend/src/lib/api.ts (part_003). -/
structure Candidate where
  id : ℕ
  name : String
  description : String
  tags : List String
  stock_level : ℕ
deriving DecidableEq

/-- `ScoreVector: {semantic, knowledge, collaborative}` per candidate,
each model's raw score (spec §3). -/
structure ScoreVector where
  semantic : ℚ
  knowledge : ℚ
  collaborative : ℚ
deriving DecidableEq

/-- Modelled from the spec: the raw ensemble combination
`final_score = semantic*w_semantic + knowledge*w_knowledge +
collaborative*w_collaborative` (spec §4.2). -/
def combineScore (w : WeightVector) (s : ScoreVector) : ℚ :=
  s.semantic * w.semantic + s.knowledge * w.knowledge +
    s.collaborative * w.collaborative

/-- Modelled from the spec: the fixed stock-penalty dampening factor
("e.g., 0.3", spec §4.2). -/
def dampeningFactor : ℚ := 3/10

/-- `RecommendationResult` (spec §3): candidate identity, display
percentage, dampened final score, the WeightVector-shaped `voting`
contribution map and the stock level.  The explanation payload carries
no numeric obligations for the claims and is omitted. -/
structure RecommendationResult where
  candidate_id : ℕ
  name : String
  description : String
  similarity_score : ℚ
  final_score : ℚ
  voting : WeightVector
  stock_level : ℕ
deriving DecidableEq

/-- Modelled from the spec: the aggregator's per-candidate result —
raw combination, then "if `stock_level == 0`, multiply final_score by a
fixed dampening factor rather than excluding the candidate", with the
undamped `voting` breakdown `raw_i * w_i` (spec §4.2). -/
def mkResult (w : WeightVector) (s : ScoreVector) (c : Candidate) :
    RecommendationResult :=
  { candidate_id := c.id
    name := c.name
    description := c.description
    similarity_score :=
      (if c.stock_level = 0 then dampeningFactor * combineScore w s
       else combineScore w s) * 100
    final_score :=
      if c.stock_level = 0 then dampeningFactor * combineScore w s
      else combineScore w s
    voting := ⟨s.semantic * w.semantic, s.knowledge * w.knowledge,
               s.collaborative * w.collaborative⟩
    stock_level := c.stock_level }

/-- Modelled from the spec: the ranking order — "Rank candidates
descending by dampened final_score; ties broken by candidate id"
(spec §4.2).  `RankLE a b` says `a` may legitimately precede `b`. -/
def RankLE (a b : RecommendationResult) : Prop :=
  b.final_score < a.final_score ∨
    (a.final_score = b.final_score ∧ a.candidate_id ≤ b.candidate_id)

instance instDecidableRankLE (a b : RecommendationResult) :
    Decidable (RankLE a b) := by
  unfold RankLE; infer_instance

/-- Insert an element into a list sorted by `le`, keeping it sorted. -/
def insertSorted {α : Type} (le : α → α → Bool) (a : α) : List α → List α
  | [] => [a]
  | b :: bs => if le a b then a :: b :: bs else b :: insertSorted le a bs

/-- Insertion sort by the boolean relation `le`. -/
def sortBy {α : Type} (le : α → α → Bool) : List α → List α
  | [] => []
  | a :: as => insertSorted le a (sortBy le as)

/-- Modelled from the spec: the full ranked result list — every catalog
candidate scored, combined with the current weights, stock-dampened and
sorted by `RankLE` (spec §4.2).  No candidate is excluded. -/
def rankAll (score : Candidate → ScoreVector) (w : WeightVector)
    (cat : List Candidate) : List RecommendationResult :=
  sortBy (fun a b => decide (RankLE a b))
    (cat.map (fun c => mkResult w (score c) c))

/-- Modelled from the spec: "Emit top-K ... as the response list"
(spec §4.2). -/
def recommend (score : Candidate → ScoreVector) (w : WeightVector)
    (cat : List Candidate) (k : ℕ) : List RecommendationResult :=
  (rankAll score w cat).take k

/-- The three scoring models, as a closed variant set (spec §9). -/
inductive ModelKind where
  | semanticModel
  | knowledgeModel
  | collaborativeModel
deriving DecidableEq

/-- Modelled from the spec: the model that "most strongly preferred"
a candidate — the argmax component of its ScoreVector, ties resolved in
the fixed order semantic, knowledge, collaborative (spec §4.4 step 2
names no tie rule). -/
def dominantModel (s : ScoreVector) : ModelKind :=
  if s.knowledge ≤ s.semantic ∧ s.collaborative ≤ s.semantic then
    ModelKind.semanticModel
  else if s.collaborative ≤ s.knowledge then ModelKind.knowledgeModel
  else ModelKind.collaborativeModel

/-- A nudge vector of magnitude `d` on one model's weight. -/
def unitNudge (m : ModelKind) (d : ℚ) : WeightVector :=
  match m with
  | ModelKind.semanticModel => ⟨d, 0, 0⟩
  | ModelKind.knowledgeModel => ⟨0, d, 0⟩
  | ModelKind.collaborativeModel => ⟨0, 0, d⟩

/-- Modelled from the spec: "a small fixed learning rate (e.g.,
0.01–0.05)" (spec §4.4 step 2). -/
def learningRate : ℚ := 1/20

/-- `LearningEvent: {timestamp, symptoms_text, selected_medicine}`
(spec §3); timestamps are modelled as seconds. -/
structure LearningEvent where
  timestamp : ℕ
  symptoms_text : String
  selected_medicine : String
deriving DecidableEq

/-- `WeightSnapshot: {timestamp, weights}` (spec §3). -/
structure WeightSnapshot where
  timestamp : ℕ
  weights : WeightVector
deriving DecidableEq

/-- Modelled from the spec: the Learning Store — the append-only
LearningEvent log, the WeightSnapshot log and the MedicinePattern
co-occurrence table (spec §2, §3).  A MedicinePattern row maps a
normalized symptom signature to per-medicine counts. -/
structure LearningStore where
  events : List LearningEvent
  snapshots : List WeightSnapshot
  patterns : List (String × List (String × ℕ))
deriving DecidableEq

/-- The learning engine's whole mutable state: the in-memory
WeightVector plus the persisted Learning Store (spec §3, §4.4). -/
structure EngineState where
  weights : WeightVector
  store : LearningStore
deriving DecidableEq

/-- The error taxonomy entries a feedback submission can produce
(spec §7): InputError and PersistenceFailure. -/
inductive FeedbackError where
  | inputError
  | persistenceFailure
deriving DecidableEq

/-- Modelled from the spec: whether `m` "is a known candidate id/name"
in the catalog (spec §4.4 step 1). -/
def isKnownMedicine (cat : List Candidate) (m : String) : Bool :=
  cat.any (fun c => c.name == m || Nat.repr c.id == m)

/-- Increment (or create) the count of one medicine in a pattern row. -/
def bumpCount (m : String) : List (String × ℕ) → List (String × ℕ)
  | [] => [(m, 1)]
  | (n, k) :: rest =>
      if n = m then (n, k + 1) :: rest else (n, k) :: bumpCount m rest

/-- Modelled from the spec: "increment the count for
`(normalized-signature(symptoms_text), selected_medicine)`"
(spec §4.4 step 3). -/
def bumpPattern (sig m : String) :
    List (String × List (String × ℕ)) → List (String × List (String × ℕ))
  | [] => [(sig, bumpCount m [])]
  | (s, tbl) :: rest =>
      if s = sig then (s, bumpCount m tbl) :: rest
      else (s, tbl) :: bumpPattern sig m rest

/-- Modelled from the spec: the "normalized-symptom-signature" key of
the MedicinePattern table (spec §3); modelled as lower-casing. -/
def normalizeSignature (s : String) : String := s.toLower

/-- Modelled from the spec: the aggregator's top pick for a query
(spec §4.4 step 2 compares it with the actual selection). -/
def topPick (score : Candidate → ScoreVector) (w : WeightVector)
    (cat : List Candidate) : Option RecommendationResult :=
  (rankAll score w cat).head?

/-- Modelled from the spec: the additive weight nudge of one feedback
event — "if the top aggregate pick matches the actual selection, nudge
the weight of whichever single model most strongly preferred that pick
upward; otherwise nudge the weight(s) of whichever model(s) preferred
the wrong candidate downward" (spec §4.4 step 2). -/
def computeNudge (score : Candidate → ScoreVector) (cat : List Candidate)
    (w : WeightVector) (ev : LearningEvent) : WeightVector :=
  match topPick score w cat with
  | none => ⟨0, 0, 0⟩
  | some top =>
      match cat.find? (fun c => c.id == top.candidate_id) with
      | none => ⟨0, 0, 0⟩
      | some c =>
          if top.name = ev.selected_medicine then
            unitNudge (dominantModel (score c)) learningRate
          else
            unitNudge (dominantModel (score c)) (-learningRate)

/-- Modelled from the spec: the per-event state machine of the
incremental learning engine, `received → validated → applied →
persisted` (spec §4.4).  Validation rejects an empty `symptoms_text` or
an unknown `selected_medicine` with no state mutation; otherwise the
nudged weights, the bumped pattern table, the appended LearningEvent
and the new WeightSnapshot are committed only when the Learning Store
append succeeds (`persistOk`), and on persistence failure the in-memory
update is rolled back and the event reported as failed. -/
def processFeedback (score : Candidate → ScoreVector)
    (cat : List Candidate) (persistOk : Bool) (st : EngineState)
    (ev : LearningEvent) : Except FeedbackError WeightVector × EngineState :=
  if ev.symptoms_text = "" ∨ isKnownMedicine cat ev.selected_medicine = false
  then (Except.error FeedbackError.inputError, st)
  else
    let w := applyNudge st.weights (computeNudge score cat st.weights ev)
    if persistOk then
      (Except.ok w,
       { weights := w
         store :=
           { events := st.store.events ++ [ev]
             snapshots := st.store.snapshots ++ [⟨ev.timestamp, w⟩]
             patterns := bumpPattern (normalizeSignature ev.symptoms_text)
               ev.selected_medicine st.store.patterns } })
    else (Except.error FeedbackError.persistenceFailure, st)

/-- Modelled from the spec: the learning statistics record —
"{total_learning_events, events_today, hourly_rate,
last_event_timestamp, weight_evolution, medicine_patterns}" (spec §6).
The backend endpoint serving it is not under src/; the frontend's view
of the payload is the `LearningStats` interface of part_003. -/
structure LearningStats where
  total_learning_events : ℕ
  events_today : ℕ
  hourly_rate : ℚ
  last_event_timestamp : Option ℕ
  weight_evolution : List WeightSnapshot
  medicine_patterns : List (String × List (String × ℕ))
deriving DecidableEq

/-- Modelled from the spec: the learning statistics read, "all purely
derived from the Learning Store, read-only" (spec §6).  `now` is the
reading time in seconds; a day is 86400 s, events of the last hour set
the hourly rate.  The unchanged store is returned alongside to express
that the read mutates nothing. -/
def getLearningStats (store : LearningStore) (now : ℕ) :
    LearningStats × LearningStore :=
  ({ total_learning_events := store.events.length
     events_today :=
       (store.events.filter (fun e => e.timestamp / 86400 = now / 86400)).length
     hourly_rate :=
       ((store.events.filter (fun e => now ≤ e.timestamp + 3600)).length : ℚ)
     last_event_timestamp := store.events.getLast?.map LearningEvent.timestamp
     weight_evolution := store.snapshots
     medicine_patterns := store.patterns }, store)

/-- The `Medicine` interface of src/frontend/src/lib/api.ts
(part_003): `{id, name, description, stock_level}`. -/
structure Medicine where
  id : ℕ
  name : String
  description : String
  stock_level : ℕ
deriving DecidableEq

/-- `lowStock` of src/frontend/src/app/pharmacy/page.tsx line 86:
`medicines.filter((m) => m.stock_level > 0 && m.stock_level < 10).length`. -/
def lowStock (medicines : List Medicine) : ℕ :=
  (medicines.filter (fun m => 0 < m.stock_level ∧ m.stock_level < 10)).length

/-- `outOfStock` of src/frontend/src/app/pharmacy/page.tsx line 87:
`medicines.filter((m) => m.stock_level === 0).length`. -/
def outOfStock (medicines : List Medicine) : ℕ :=
  (medicines.filter (fun m => m.stock_level = 0)).length

/-- The four badge variants `getStockBadge` can render
(src/frontend/src/app/pharmacy/page.tsx lines 126–131): the error badge
is the literal text "Out of Stock", the others show the unit count. -/
inductive StockBadge where
  | errorOutOfStock
  | warningUnits (stock : ℕ)
  | infoUnits (stock : ℕ)
  | successUnits (stock : ℕ)
deriving DecidableEq

/-- `getStockBadge` of src/frontend/src/app/pharmacy/page.tsx lines
126–131, threshold for threshold. -/
def getStockBadge (stock : ℕ) : StockBadge :=
  if stock = 0 then StockBadge.errorOutOfStock
  else if stock < 10 then StockBadge.warningUnits stock
  else if stock < 50 then StockBadge.infoUnits stock
  else StockBadge.successUnits stock

/-- The match-percentage display of
src/frontend/src/app/appointment/[patientId]/page.tsx lines 349–355:
the rendered score is `similarity_score` when present, otherwise
`Math.round((final_score || 0) * 1000) / 10`.  JavaScript's
`Math.round` is round-half-up, exactly Mathlib's `round`; the absent
fields are `none`. -/
def displayMatchScore (similarity : Option ℚ) (finalScore : Option ℚ) : ℚ :=
  match similarity with
  | some s => s
  | none => (round ((finalScore.getD 0) * 1000) : ℚ) / 10

/-- `prev.split("\n")` on a JavaScript string modelled as a character
list: the part before the first newline plus the remaining parts. -/
def splitLinesAux : List Char → List Char × List (List Char)
  | [] => ([], [])
  | c :: cs =>
      let r := splitLinesAux cs
      if c = '\n' then ([], r.1 :: r.2) else (c :: r.1, r.2)

/-- `prev.split("\n")` — always at least one part, like in JavaScript. -/
def splitLines (s : List Char) : List (List Char) :=
  (splitLinesAux s).1 :: (splitLinesAux s).2

/-- `[...].join("\n")` on character-list strings. -/
def joinLines : List (List Char) → List Char
  | [] => []
  | [l] => l
  | l :: ls => l ++ '\n' :: joinLines ls

/-- `prev.split("\n").filter(Boolean)` — the non-empty lines of the
prescription text (page.tsx line 191). -/
def linesOf (s : List Char) : List (List Char) :=
  (splitLines s).filter (fun l => l ≠ [])

/-- `handleAddToPrescription` of
src/frontend/src/app/appointment/[patientId]/page.tsx lines 189–197:
split the pad into non-empty lines; if the medicine is already a line,
keep the text, else append the medicine and re-join. -/
def handleAddToPrescription (medicine prev : List Char) : List Char :=
  if medicine ∈ linesOf prev then prev
  else joinLines (linesOf prev ++ [medicine])

/-- Witness fixture: the in-stock Metformin candidate of the spec §8
scenario. -/
def metformin : Candidate :=
  ⟨1, "Metformin", "diabetes care", ["diabetes"], 20⟩

/-- Witness fixture: the zero-stock Amoxicillin candidate of the spec
§8 scenario. -/
def amoxicillin : Candidate :=
  ⟨2, "Amoxicillin", "antibiotic", ["infection"], 0⟩

/-- Witness fixture: a concrete scoring assignment for the two
fixture candidates. -/
def demoScore : Candidate → ScoreVector := fun c =>
  if c.id = 1 then ⟨1, 1/2, 0⟩ else ⟨1/2, 0, 0⟩

/-- Witness fixture: a fresh engine state with the uniform weights and
an empty learning store. -/
def demoState : EngineState := ⟨initialWeights, ⟨[], [], []⟩⟩

/-- Witness fixture: a well-formed feedback event selecting the
fixture catalog's Metformin. -/
def demoEvent : LearningEvent := ⟨100, "headache", "Metformin"⟩

/-- Witness fixture: a feedback event with empty symptom text, which
validation must reject. -/
def demoBadEvent : LearningEvent := ⟨100, "", "Metformin"⟩

theorem validWeights_initialWeights : validWeights initialWeights := by
  refine ⟨by norm_num [initialWeights], by norm_num [initialWeights],
    by norm_num [initialWeights], ?_⟩
  norm_num [initialWeights, WeightVector.total]

theorem clipNonneg_total_nonneg (w : WeightVector) : 0 ≤ (clipNonneg w).total := by
  have h1 : (0:ℚ) ≤ max w.semantic 0 := le_max_right _ _
  have h2 : (0:ℚ) ≤ max w.knowledge 0 := le_max_right _ _
  have h3 : (0:ℚ) ≤ max w.collaborative 0 := le_max_right _ _
  simp only [clipNonneg, WeightVector.total]
  linarith

theorem total_mk_div (a b c s : ℚ) (hs : s ≠ 0) (h : a + b + c = s) :
    WeightVector.total ⟨a / s, b / s, c / s⟩ = 1 := by
  simp only [WeightVector.total]
  rw [div_add_div_same, div_add_div_same, h, div_self hs]

theorem validWeights_renormalize (w : WeightVector) : validWeights (renormalize w) := by
  by_cases h : (clipNonneg w).total = 0
  · rw [renormalize, if_pos h]
    exact validWeights_initialWeights
  · have hpos : 0 < (clipNonneg w).total :=
      lt_of_le_of_ne (clipNonneg_total_nonneg w) (Ne.symm h)
    have h1 : (0:ℚ) ≤ (clipNonneg w).semantic := le_max_right _ _
    have h2 : (0:ℚ) ≤ (clipNonneg w).knowledge := le_max_right _ _
    have h3 : (0:ℚ) ≤ (clipNonneg w).collaborative := le_max_right _ _
    rw [renormalize, if_neg h]
    exact ⟨div_nonneg h1 hpos.le, div_nonneg h2 hpos.le,
      div_nonneg h3 hpos.le, total_mk_div _ _ _ _ h rfl⟩

theorem validWeights_applyNudge (w d : WeightVector) :
    validWeights (applyNudge w d) :=
  validWeights_renormalize _

theorem insertSorted_perm {α : Type} (le : α → α → Bool) (a : α) :
    ∀ l : List α, (insertSorted le a l).Perm (a :: l)
  | [] => List.Perm.refl _
  | b :: bs => by
      by_cases h : le a b
      · rw [insertSorted, if_pos h]
      · rw [insertSorted, if_neg h]
        exact ((insertSorted_perm le a bs).cons b).trans (List.Perm.swap a b bs)

theorem sortBy_perm {α : Type} (le : α → α → Bool) :
    ∀ l : List α, (sortBy le l).Perm l
  | [] => List.Perm.refl _
  | a :: as =>
      (insertSorted_perm le a (sortBy le as)).trans ((sortBy_perm le as).cons a)

theorem pairwise_insertSorted {α : Type} (le : α → α → Bool)
    (htrans : ∀ a b c, le a b = true → le b c = true → le a c = true)
    (htot : ∀ a b, le a b = true ∨ le b a = true) (a : α) :
    ∀ l : List α, l.Pairwise (fun x y => le x y = true) →
      (insertSorted le a l).Pairwise (fun x y => le x y = true)
  | [], _ => List.pairwise_singleton _ _
  | b :: bs, hl => by
      rw [List.pairwise_cons] at hl
      obtain ⟨hb, hbs⟩ := hl
      by_cases h : le a b
      · rw [insertSorted, if_pos h, List.pairwise_cons]
        refine ⟨?_, List.pairwise_cons.mpr ⟨hb, hbs⟩⟩
        intro x hx
        rcases List.mem_cons.mp hx with hx | hx
        · exact hx ▸ h
        · exact htrans a b x h (hb x hx)
      · have hba : le b a = true := (htot a b).resolve_left h
        rw [insertSorted, if_neg h, List.pairwise_cons]
        refine ⟨?_, pairwise_insertSorted le htrans htot a bs hbs⟩
        intro x hx
        rcases List.mem_cons.mp ((insertSorted_perm le a bs).mem_iff.mp hx)
          with hx | hx
        · exact hx ▸ hba
        · exact hb x hx

theorem pairwise_sortBy {α : Type} (le : α → α → Bool)
    (htrans : ∀ a b c, le a b = true → le b c = true → le a c = true)
    (htot : ∀ a b, le a b = true ∨ le b a = true) :
    ∀ l : List α, (sortBy le l).Pairwise (fun x y => le x y = true)
  | [] => List.Pairwise.nil
  | a :: as =>
      pairwise_insertSorted le htrans htot a (sortBy le as)
        (pairwise_sortBy le htrans htot as)

theorem rankLE_trans (a b c : RecommendationResult) :
    RankLE a b → RankLE b c → RankLE a c := by
  intro hab hbc
  rcases hab with hab | ⟨hab1, hab2⟩ <;> rcases hbc with hbc | ⟨hbc1, hbc2⟩
  · exact Or.inl (hbc.trans hab)
  · exact Or.inl (hbc1 ▸ hab)
  · exact Or.inl (hab1 ▸ hbc)
  · exact Or.inr ⟨hab1.trans hbc1, hab2.trans hbc2⟩

theorem rankLE_total (a b : RecommendationResult) : RankLE a b ∨ RankLE b a := by
  rcases lt_trichotomy a.final_score b.final_score with h | h | h
  · exact Or.inr (Or.inl h)
  · rcases Nat.le_total a.candidate_id b.candidate_id with hid | hid
    · exact Or.inl (Or.inr ⟨h, hid⟩)
    · exact Or.inr (Or.inr ⟨h.symm, hid⟩)
  · exact Or.inl (Or.inl h)

theorem pairwise_rankAll (score : Candidate → ScoreVector)
    (w : WeightVector) (cat : List Candidate) :
    (rankAll score w cat).Pairwise RankLE := by
  have h := pairwise_sortBy (fun a b => decide (RankLE a b))
    (fun a b c hab hbc =>
      decide_eq_true (rankLE_trans a b c (of_decide_eq_true hab)
        (of_decide_eq_true hbc)))
    (fun a b => by
      rcases rankLE_total a b with h | h
      · exact Or.inl (decide_eq_true h)
      · exact Or.inr (decide_eq_true h))
    (cat.map (fun c => mkResult w (score c) c))
  exact h.imp (fun hx => of_decide_eq_true hx)

/-- C1: every WeightVector the learning engine produces — the initial
vector and the result of every feedback update (additive nudge, clip to
≥0, renormalize) — has all three components ≥ 0 and total exactly 1,
and every write of the WeightVector (a feedback commit) either leaves
the vector untouched or leaves it satisfying the invariant. -/
theorem weight_invariant_preserved :
    validWeights initialWeights ∧
    (∀ w d, validWeights (applyNudge w d)) ∧
    (∀ score cat ok st ev,
      ((processFeedback score cat ok st ev).2).weights = st.weights ∨
        validWeights ((processFeedback score cat ok st ev).2).weights) := by
  refine ⟨validWeights_initialWeights, fun w d => validWeights_applyNudge w d, ?_⟩
  intro score cat ok st ev
  by_cases hv : ev.symptoms_text = "" ∨ isKnownMedicine cat ev.selected_medicine = false
  · left
    rw [processFeedback, if_pos hv]
  · rw [processFeedback, if_neg hv]
    cases ok
    · left; rfl
    · right
      exact validWeights_applyNudge _ _

/-- C2: each recommendation response is sorted — descending on the
stock-dampened final score with ties broken by ascending candidate id
(`RankLE`) — and is a deterministic function of the scoring assignment,
weights, catalog and limit, so identical requests yield the identical
ordered list. -/
theorem recommend_sorted_deterministic (score : Candidate → ScoreVector)
    (w : WeightVector) (cat : List Candidate) (k : ℕ) :
    (recommend score w cat k).Pairwise RankLE ∧
    (∀ score2 w2 cat2 k2, score2 = score → w2 = w → cat2 = cat → k2 = k →
      recommend score2 w2 cat2 k2 = recommend score w cat k) := by
  constructor
  · exact List.Pairwise.sublist (List.take_sublist k _) (pairwise_rankAll score w cat)
  · intro score2 w2 cat2 k2 h1 h2 h3 h4
    rw [h1, h2, h3, h4]

theorem recommend_sorted_deterministic_witness :
    recommend demoScore initialWeights [metformin, amoxicillin] 3 =
      recommend demoScore initialWeights [metformin, amoxicillin] 3 :=
  (recommend_sorted_deterministic demoScore initialWeights
    [metformin, amoxicillin] 3).2 demoScore initialWeights
    [metformin, amoxicillin] 3 rfl rfl rfl rfl

/-- C3: for every result in a recommendation response, the sum of the
three voting contributions equals the final score as it was before the
stock penalty: the dampened score divided back by the dampening factor
for a zero-stock candidate, the reported final score otherwise. -/
theorem voting_total_eq_pre_penalty (score : Candidate → ScoreVector)
    (w : WeightVector) (cat : List Candidate) (k : ℕ)
    (r : RecommendationResult) (hr : r ∈ recommend score w cat k) :
    r.voting.total =
      if r.stock_level = 0 then r.final_score / dampeningFactor
      else r.final_score := by
  have h1 : r ∈ rankAll score w cat := List.take_subset k _ hr
  have h2 : r ∈ cat.map (fun c => mkResult w (score c) c) :=
    (sortBy_perm _ _).mem_iff.mp h1
  obtain ⟨c, hc, rfl⟩ := List.mem_map.mp h2
  by_cases hs : c.stock_level = 0
  · simp only [mkResult, hs, if_true, WeightVector.total]
    rw [mul_div_cancel_left₀ _ (show dampeningFactor ≠ 0 by
      norm_num [dampeningFactor])]
    simp [combineScore]
  · simp only [mkResult, hs, if_false, WeightVector.total]
    simp [combineScore, hs]

theorem voting_total_eq_pre_penalty_witness :
    (mkResult initialWeights (demoScore metformin) metformin).voting.total =
      if (mkResult initialWeights (demoScore metformin) metformin).stock_level = 0
      then (mkResult initialWeights (demoScore metformin) metformin).final_score /
        dampeningFactor
      else (mkResult initialWeights (demoScore metformin) metformin).final_score :=
  voting_total_eq_pre_penalty demoScore initialWeights [metformin] 1 _
    (by simp [recommend, rankAll, sortBy, insertSorted])

/-- C4: a zero-stock candidate is never excluded: the full ranked list
contains its result, carrying stock_level 0 and the combined score
multiplied by the fixed dampening factor; and every result ranked at a
position below K is in the emitted top-K response, so a zero-stock
candidate appears whenever its dampened score qualifies it. -/
theorem zero_stock_kept_and_dampened (score : Candidate → ScoreVector)
    (w : WeightVector) (cat : List Candidate) (k : ℕ) (c : Candidate)
    (hc : c ∈ cat) (hs : c.stock_level = 0) :
    (∃ r, r ∈ rankAll score w cat ∧ r.candidate_id = c.id ∧
      r.stock_level = 0 ∧
      r.final_score = dampeningFactor * combineScore w (score c)) ∧
    (∀ i, ∀ h : i < (rankAll score w cat).length, i < k →
      (rankAll score w cat).get ⟨i, h⟩ ∈ recommend score w cat k) := by
  constructor
  · refine ⟨mkResult w (score c) c, ?_, rfl, hs, ?_⟩
    · exact (sortBy_perm _ _).mem_iff.mpr (List.mem_map_of_mem _ hc)
    · simp [mkResult, hs]
  · intro i h hk
    have hlen : i < ((rankAll score w cat).take k).length := by
      simp only [List.length_take]
      omega
    have h2 : ((rankAll score w cat).take k).get ⟨i, hlen⟩ =
        (rankAll score w cat).get ⟨i, h⟩ := by
      simp [List.get_eq_getElem, List.getElem_take]
    rw [recommend, ← h2]
    exact List.get_mem _ _ hlen

theorem zero_stock_kept_and_dampened_witness :
    (∃ r, r ∈ rankAll demoScore initialWeights [amoxicillin] ∧
      r.candidate_id = amoxicillin.id ∧ r.stock_level = 0 ∧
      r.final_score =
        dampeningFactor * combineScore initialWeights (demoScore amoxicillin)) ∧
    (∀ i, ∀ h : i < (rankAll demoScore initialWeights [amoxicillin]).length,
      i < 1 →
      (rankAll demoScore initialWeights [amoxicillin]).get ⟨i, h⟩ ∈
        recommend demoScore initialWeights [amoxicillin] 1) :=
  zero_stock_kept_and_dampened demoScore initialWeights [amoxicillin] 1
    amoxicillin (List.mem_singleton.mpr rfl) rfl

/-- C5: with a valid feedback event, a failing Learning Store append
rolls the whole update back — the returned state is exactly the prior
state (weights, logs and patterns untouched) and the event is reported
as a PersistenceFailure, not dropped — while a successful append
commits the nudged weights together with the appended LearningEvent
and the new WeightSnapshot. -/
theorem persistence_failure_rolled_back (score : Candidate → ScoreVector)
    (cat : List Candidate) (st : EngineState) (ev : LearningEvent)
    (hsym : ev.symptoms_text ≠ "")
    (hknown : isKnownMedicine cat ev.selected_medicine = true) :
    processFeedback score cat false st ev =
      (Except.error FeedbackError.persistenceFailure, st) ∧
    processFeedback score cat true st ev =
      (Except.ok (applyNudge st.weights (computeNudge score cat st.weights ev)),
       { weights := applyNudge st.weights (computeNudge score cat st.weights ev)
         store :=
           { events := st.store.events ++ [ev]
             snapshots := st.store.snapshots ++
               [⟨ev.timestamp,
                 applyNudge st.weights (computeNudge score cat st.weights ev)⟩]
             patterns := bumpPattern (normalizeSignature ev.symptoms_text)
               ev.selected_medicine st.store.patterns } }) := by
  have hv : ¬(ev.symptoms_text = "" ∨
      isKnownMedicine cat ev.selected_medicine = false) := by
    rintro (h | h)
    · exact hsym h
    · rw [hknown] at h
      exact absurd h (by decide)
  constructor
  · rw [processFeedback, if_neg hv]
    rfl
  · rw [processFeedback, if_neg hv]
    rfl

theorem persistence_failure_rolled_back_witness :
    processFeedback demoScore [metformin] false demoState demoEvent =
      (Except.error FeedbackError.persistenceFailure, demoState) :=
  (persistence_failure_rolled_back demoScore [metformin] demoState demoEvent
    (by decide) (by decide)).1

/-- C6: a feedback event whose symptom text is empty or whose selected
medicine is unknown to the catalog is rejected with an InputError and
the returned state is exactly the prior state: weights, MedicinePattern
table, LearningEvent log and WeightSnapshot log are all unchanged, so
in particular no WeightSnapshot is appended. -/
theorem invalid_feedback_no_mutation (score : Candidate → ScoreVector)
    (cat : List Candidate) (ok : Bool) (st : EngineState)
    (ev : LearningEvent)
    (hv : ev.symptoms_text = "" ∨
      isKnownMedicine cat ev.selected_medicine = false) :
    processFeedback score cat ok st ev =
      (Except.error FeedbackError.inputError, st) := by
  rw [processFeedback, if_pos hv]

theorem invalid_feedback_no_mutation_witness :
    processFeedback demoScore [metformin] true demoState demoBadEvent =
      (Except.error FeedbackError.inputError, demoState) :=
  invalid_feedback_no_mutation demoScore [metformin] true demoState
    demoBadEvent (Or.inl rfl)

/-- C7: the learning statistics read returns exactly the record of
total events, events today, hourly rate, last event timestamp, the
ordered weight evolution and the medicine pattern table — every field
derived purely from the Learning Store — and leaves the store
unchanged. -/
theorem learning_stats_read_only (store : LearningStore) (now : ℕ) :
    (getLearningStats store now).2 = store ∧
    (getLearningStats store now).1.total_learning_events =
      store.events.length ∧
    (getLearningStats store now).1.events_today =
      (store.events.filter
        (fun e => e.timestamp / 86400 = now / 86400)).length ∧
    (getLearningStats store now).1.hourly_rate =
      ((store.events.filter (fun e => now ≤ e.timestamp + 3600)).length : ℚ) ∧
    (getLearningStats store now).1.last_event_timestamp =
      store.events.getLast?.map LearningEvent.timestamp ∧
    (getLearningStats store now).1.weight_evolution = store.snapshots ∧
    (getLearningStats store now).1.medicine_patterns = store.patterns :=
  ⟨rfl, rfl, rfl, rfl, rfl, rfl, rfl⟩

/-- C8: when a rendered recommendation has no similarity_score and its
final_score lies in [0,1], the displayed match percentage is
`Math.round(final_score * 1000) / 10`, which lies in [0,100]. -/
theorem display_match_percentage (finalScore : ℚ)
    (h0 : 0 ≤ finalScore) (h1 : finalScore ≤ 1) :
    displayMatchScore none (some finalScore) =
      (round (finalScore * 1000) : ℚ) / 10 ∧
    0 ≤ displayMatchScore none (some finalScore) ∧
    displayMatchScore none (some finalScore) ≤ 100 := by
  have hr0 : (0:ℤ) ≤ round (finalScore * 1000) := by
    rw [round_eq]
    exact Int.floor_nonneg.mpr (by linarith)
  have hr1 : round (finalScore * 1000) ≤ (1000:ℤ) := by
    rw [round_eq]
    calc ⌊finalScore * 1000 + 1/2⌋ ≤ ⌊(1000:ℚ) + 1/2⌋ :=
          Int.floor_mono (by linarith)
      _ = 1000 := by norm_num
  have hq0 : (0:ℚ) ≤ (round (finalScore * 1000) : ℚ) := by exact_mod_cast hr0
  have hq1 : (round (finalScore * 1000) : ℚ) ≤ 1000 := by exact_mod_cast hr1
  refine ⟨rfl, ?_, ?_⟩
  · show 0 ≤ (round ((some finalScore).getD 0 * 1000) : ℚ) / 10
    rw [Option.getD_some]
    positivity
  · show (round ((some finalScore).getD 0 * 1000) : ℚ) / 10 ≤ 100
    rw [Option.getD_some]
    linarith

theorem display_match_percentage_witness :
    displayMatchScore none (some (37/100)) =
      (round ((37:ℚ)/100 * 1000) : ℚ) / 10 ∧
    0 ≤ displayMatchScore none (some (37/100)) ∧
    displayMatchScore none (some (37/100)) ≤ 100 :=
  display_match_percentage (37/100) (by norm_num) (by norm_num)

theorem splitLinesAux_no_newline (s : List Char) :
    ('\n' ∉ (splitLinesAux s).1) ∧ ∀ l ∈ (splitLinesAux s).2, '\n' ∉ l := by
  induction s with
  | nil => simp [splitLinesAux]
  | cons c cs ih =>
      by_cases h : c = '\n'
      · simp only [splitLinesAux, h, if_pos rfl]
        exact ⟨by simp, by
          intro l hl
          rcases List.mem_cons.mp hl with hl | hl
          · exact hl ▸ ih.1
          · exact ih.2 l hl⟩
      · simp only [splitLinesAux, if_neg h]
        refine ⟨?_, ih.2⟩
        intro hc
        rcases List.mem_cons.mp hc with hc | hc
        · exact h hc.symm
        · exact ih.1 hc

theorem mem_splitLines_no_newline (s l : List Char) (hl : l ∈ splitLines s) :
    '\n' ∉ l := by
  rcases List.mem_cons.mp hl with hl | hl
  · exact hl ▸ (splitLinesAux_no_newline s).1
  · exact (splitLinesAux_no_newline s).2 l hl

theorem splitLinesAux_no_newline_id (l : List Char) (hl : '\n' ∉ l) :
    splitLinesAux l = (l, []) := by
  induction l with
  | nil => rfl
  | cons c cs ih =>
      have hc : ¬c = '\n' := fun h =>
        hl (h ▸ List.mem_cons_self c cs)
      have ih2 := ih (fun hm => hl (List.mem_cons_of_mem c hm))
      simp [splitLinesAux, hc, ih2]

theorem splitLinesAux_append_newline (l r : List Char) (hl : '\n' ∉ l) :
    splitLinesAux (l ++ '\n' :: r) =
      (l, (splitLinesAux r).1 :: (splitLinesAux r).2) := by
  induction l with
  | nil => simp [splitLinesAux]
  | cons c cs ih =>
      have hc : ¬c = '\n' := fun h =>
        hl (h ▸ List.mem_cons_self c cs)
      have ih2 := ih (fun hm => hl (List.mem_cons_of_mem c hm))
      simp [splitLinesAux, hc, ih2]

theorem splitLines_joinLines (L : List (List Char)) (hL : L ≠ [])
    (h : ∀ l ∈ L, '\n' ∉ l) : splitLines (joinLines L) = L := by
  induction L with
  | nil => exact absurd rfl hL
  | cons l ls ih =>
      cases ls with
      | nil =>
          rw [joinLines, splitLines,
            splitLinesAux_no_newline_id l (h l (List.mem_cons_self _ _))]
      | cons l2 ls2 =>
          have hjoin : joinLines (l :: l2 :: ls2) =
              l ++ '\n' :: joinLines (l2 :: ls2) := rfl
          have hih := ih (by simp)
            (fun x hx => h x (List.mem_cons_of_mem l hx))
          rw [hjoin, splitLines,
            splitLinesAux_append_newline l _ (h l (List.mem_cons_self _ _))]
          rw [splitLines] at hih
          rw [hih]

theorem linesOf_handleAdd (m prev : List Char) (hm : '\n' ∉ m)
    (hnot : m ∉ linesOf prev) :
    linesOf (handleAddToPrescription m prev) =
      linesOf prev ++ if m = [] then [] else [m] := by
  rw [handleAddToPrescription, if_neg hnot]
  have hmem : ∀ l ∈ linesOf prev ++ [m], '\n' ∉ l := by
    intro l hl
    rcases List.mem_append.mp hl with hl | hl
    · exact mem_splitLines_no_newline prev l (List.mem_of_mem_filter hl)
    · exact (List.mem_singleton.mp hl) ▸ hm
  rw [linesOf, splitLines_joinLines _ (by simp) hmem, List.filter_append]
  congr 1
  · apply List.filter_eq_self.mpr
    intro a ha
    exact (List.mem_filter.mp ha).2
  · by_cases hm0 : m = []
    · simp [hm0]
    · simp [hm0]

/-- C9 (amended): for a single-line medicine name (no newline
character), `handleAddToPrescription` keeps the text unchanged when the
name is already a non-empty line, applying it twice equals applying it
once, and when the current pad's non-empty lines are duplicate-free the
produced lines are too, so each distinct name appears at most once. -/
theorem add_to_prescription_idempotent (m prev : List Char)
    (hm : '\n' ∉ m) :
    (m ∈ linesOf prev → handleAddToPrescription m prev = prev) ∧
    handleAddToPrescription m (handleAddToPrescription m prev) =
      handleAddToPrescription m prev ∧
    ((linesOf prev).Nodup →
      (linesOf (handleAddToPrescription m prev)).Nodup) := by
  refine ⟨fun hmem => by rw [handleAddToPrescription, if_pos hmem], ?_, ?_⟩
  · by_cases hmem : m ∈ linesOf prev
    · have h1 : handleAddToPrescription m prev = prev := by
        rw [handleAddToPrescription, if_pos hmem]
      rw [h1]
      exact h1
    · have h1 := linesOf_handleAdd m prev hm hmem
      by_cases hm0 : m = []
      · have hnot2 : m ∉ linesOf (handleAddToPrescription m prev) := by
          rw [h1, hm0]
          simp [linesOf, List.mem_filter]
        rw [handleAddToPrescription, if_neg hnot2, h1]
        conv_rhs => rw [handleAddToPrescription, if_neg hmem]
        simp [hm0]
      · have hmem2 : m ∈ linesOf (handleAddToPrescription m prev) := by
          rw [h1]
          simp [hm0]
        rw [handleAddToPrescription, if_pos hmem2]
  · intro hnd
    by_cases hmem : m ∈ linesOf prev
    · rw [handleAddToPrescription, if_pos hmem]
      exact hnd
    · rw [linesOf_handleAdd m prev hm hmem]
      by_cases hm0 : m = []
      · simpa [hm0] using hnd
      · rw [if_neg hm0]
        refine List.Nodup.append hnd (List.nodup_singleton m) ?_
        intro x hx hxm
        rw [List.mem_singleton.mp hxm] at hx
        exact hmem hx

theorem add_to_prescription_counterexample :
    handleAddToPrescription ['A', '\n', 'B']
        (handleAddToPrescription ['A', '\n', 'B'] []) ≠
      handleAddToPrescription ['A', '\n', 'B'] [] ∧
    ¬(linesOf (handleAddToPrescription ['B'] ['A', '\n', 'A'])).Nodup := by
  constructor
  · decide
  · decide

theorem lowStock_add_outOfStock_le (ms : List Medicine) :
    lowStock ms + outOfStock ms ≤ ms.length := by
  induction ms with
  | nil => simp [lowStock, outOfStock]
  | cons m t ih =>
      simp only [lowStock, outOfStock] at ih ⊢
      rw [List.filter_cons, List.filter_cons]
      by_cases h0 : m.stock_level = 0
      · simp [h0] at ih ⊢
        omega
      · by_cases h10 : 0 < m.stock_level ∧ m.stock_level < 10
        · simp [h0, h10] at ih ⊢
          omega
        · simp [h0, h10] at ih ⊢
          omega

/-- C10: on the pharmacy page the Low Stock statistic counts exactly
the medicines with 0 < stock_level < 10 and the Out of Stock statistic
counts exactly those with stock_level = 0; the two sets are disjoint so
the counts sum to at most the total, and `getStockBadge` renders the
"Out of Stock" badge exactly when the stock is 0. -/
theorem pharmacy_stock_stats (ms : List Medicine) :
    lowStock ms =
      (ms.filter (fun m => 0 < m.stock_level ∧ m.stock_level < 10)).length ∧
    outOfStock ms = (ms.filter (fun m => m.stock_level = 0)).length ∧
    lowStock ms + outOfStock ms ≤ ms.length ∧
    (∀ s, getStockBadge s = StockBadge.errorOutOfStock ↔ s = 0) := by
  refine ⟨rfl, rfl, lowStock_add_outOfStock_le ms, ?_⟩
  intro s
  constructor
  · intro h
    by_contra hs
    rw [getStockBadge, if_neg hs] at h
    by_cases h10 : s < 10
    · rw [if_pos h10] at h
      cases h
    · rw [if_neg h10] at h
      by_cases h50 : s < 50
      · rw [if_pos h50] at h
        cases h
      · rw [if_neg h50] at h
        cases h
  · intro h
    rw [getStockBadge, if_pos h]

theorem add_to_prescription_idempotent_witness :
    (['A'] ∈ linesOf ['A'] → handleAddToPrescription ['A'] ['A'] = ['A']) ∧
    handleAddToPrescription ['A'] (handleAddToPrescription ['A'] ['A']) =
      handleAddToPrescription ['A'] ['A'] ∧
    ((linesOf ['A']).Nodup →
      (linesOf (handleAddToPrescription ['A'] ['A'])).Nodup) :=
  add_to_prescription_idempotent ['A'] ['A'] (by decide)
